import Mathlib

set_option maxRecDepth 100000

/-!
Verification of the rmm broker core.

A shallow embedding of the rmm remote-monitoring broker (Go) in Lean 4.
Byte strings are modelled as `List Nat` with values `< 256`; machine words
are `Nat` with explicit reduction modulo `2^32` / `2^64` where Go wraps.
Each definition renders one Go function; stateful database and map code is
rendered as explicit state passing.
-/

namespace RMM

/-- Byte strings: Go `[]byte` / `string` values (each entry `< 256`). -/
abbrev Bytes := List Nat

/-- Bytes of an ASCII string literal (renders Go string literals). -/
def strBytes (s : String) : Bytes := s.data.map Char.toNat

/-- Big-endian serialization of `x` into exactly `w` bytes
(low byte last), as produced by `binary.BigEndian.PutUintNN`
and by the byte-extraction loops in the Go source. -/
def beBytes : Nat → Nat → Bytes
  | 0, _ => []
  | w + 1, x => beBytes w (x / 256) ++ [x % 256]

/-- Big-endian recombination of a byte list, as computed by
`binary.BigEndian.UintNN` on genuine bytes. -/
def beCombine (l : Bytes) : Nat := l.foldl (fun a b => a * 256 + b) 0

/-- Split a list into consecutive chunks of `n` elements (`n ≥ 1`);
the first argument is fuel, always instantiated with the list length. -/
def chunksGo (n : Nat) : Nat → List Nat → List Bytes
  | 0, _ => []
  | _, [] => []
  | fuel + 1, l => l.take n :: chunksGo n fuel (l.drop n)

/-- Split a byte list into consecutive `n`-byte chunks. -/
def chunks (n : Nat) (l : Bytes) : List Bytes := chunksGo n l.length l

/-! Section: SHA-256 (crypto/sha256, FIPS 180-4)

Go's `crypto/sha256` is rendered word-for-word over `Nat` with explicit
`% 2^32` wrapping.  The hash state is a fixed 8-tuple structure so digest
lengths are definitional. -/

/-- Right rotation of a 32-bit word. -/
def rotr32 (n x : Nat) : Nat := ((x >>> n) ||| (x <<< (32 - n))) % (2 ^ 32)

/-- An 8-word hash state (SHA-256 words are 32-bit, SHA-512 words 64-bit). -/
structure Hash8 where
  a : Nat
  b : Nat
  c : Nat
  d : Nat
  e : Nat
  f : Nat
  g : Nat
  hh : Nat
deriving Repr, DecidableEq

/-- SHA-256 initial hash value. -/
def sha256IV : Hash8 :=
  ⟨1779033703, 3144134277, 1013904242, 2773480762,
   1359893119, 2600822924, 528734635, 1541459225⟩

/-- The 64 SHA-256 round constants. -/
def sha256K : List Nat :=
  [1116352408, 1899447441, 3049323471, 3921009573, 961987163, 1508970993,
   2453635748, 2870763221, 3624381080, 310598401, 607225278, 1426881987,
   1925078388, 2162078206, 2614888103, 3248222580, 3835390401, 4022224774,
   264347078, 604807628, 770255983, 1249150122, 1555081692, 1996064986,
   2554220882, 2821834349, 2952996808, 3210313671, 3336571891, 3584528711,
   113926993, 338241895, 666307205, 773529912, 1294757372, 1396182291,
   1695183700, 1986661051, 2177026350, 2456956037, 2730485921, 2820302411,
   3259730800, 3345764771, 3516065817, 3600352804, 4094571909, 275423344,
   430227734, 506948616, 659060556, 883997877, 958139571, 1322822218,
   1537002063, 1747873779, 1955562222, 2024104815, 2227730452, 2361852424,
   2428436474, 2756734187, 3204031479, 3329325298]

/-- SHA-256 message-schedule word `W[t]` for `t ≥ 16`, computed from the
last 16 words of the schedule built so far. -/
def sha256NextW (ws : List Nat) : Nat :=
  let n := ws.length
  let s0 := fun x => (rotr32 7 x) ^^^ (rotr32 18 x) ^^^ (x >>> 3)
  let s1 := fun x => (rotr32 17 x) ^^^ (rotr32 19 x) ^^^ (x >>> 10)
  (s1 (ws.getD (n - 2) 0) + ws.getD (n - 7) 0 + s0 (ws.getD (n - 15) 0) + ws.getD (n - 16) 0) % (2 ^ 32)

/-- Extend a message schedule by `n` further words. -/
def sha256Extend (ws : List Nat) : Nat → List Nat
  | 0 => ws
  | n + 1 => sha256Extend (ws ++ [sha256NextW ws]) n

/-- One SHA-256 round: update the state with schedule word `w` and constant `k`. -/
def sha256Round (st : Hash8) (kw : Nat × Nat) : Hash8 :=
  let S1 := (rotr32 6 st.e) ^^^ (rotr32 11 st.e) ^^^ (rotr32 25 st.e)
  let ch := (st.e &&& st.f) ^^^ ((2 ^ 32 - 1 - st.e) &&& st.g)
  let t1 := (st.hh + S1 + ch + kw.1 + kw.2) % (2 ^ 32)
  let S0 := (rotr32 2 st.a) ^^^ (rotr32 13 st.a) ^^^ (rotr32 22 st.a)
  let maj := (st.a &&& st.b) ^^^ (st.a &&& st.c) ^^^ (st.b &&& st.c)
  let t2 := (S0 + maj) % (2 ^ 32)
  ⟨(t1 + t2) % (2 ^ 32), st.a, st.b, st.c, (st.d + t1) % (2 ^ 32), st.e, st.f, st.g⟩

/-- Compress one 64-byte block into the running state. -/
def sha256Compress (st : Hash8) (block : Bytes) : Hash8 :=
  let ws := sha256Extend ((chunks 4 block).map beCombine) 48
  let t := (ws.zip sha256K).foldl sha256Round st
  ⟨(st.a + t.a) % (2 ^ 32), (st.b + t.b) % (2 ^ 32), (st.c + t.c) % (2 ^ 32),
   (st.d + t.d) % (2 ^ 32), (st.e + t.e) % (2 ^ 32), (st.f + t.f) % (2 ^ 32),
   (st.g + t.g) % (2 ^ 32), (st.hh + t.hh) % (2 ^ 32)⟩

/-- FIPS 180-4 padding for a 64-byte block size with a `lenw`-byte length field:
append `0x80`, zeros, and the bit length big-endian. -/
def shaPad (blockSize lenw : Nat) (msg : Bytes) : Bytes :=
  let zeros := (blockSize - (msg.length + 1 + lenw) % blockSize) % blockSize
  msg ++ [0x80] ++ List.replicate zeros 0 ++ beBytes lenw (msg.length * 8)

/-- SHA-256 digest (32 bytes) of a byte string, rendering `crypto/sha256`. -/
def sha256 (msg : Bytes) : Bytes :=
  let st := (chunks 64 (shaPad 64 8 msg)).foldl sha256Compress sha256IV
  beBytes 4 st.a ++ beBytes 4 st.b ++ beBytes 4 st.c ++ beBytes 4 st.d ++
  beBytes 4 st.e ++ beBytes 4 st.f ++ beBytes 4 st.g ++ beBytes 4 st.hh

/-! Section: SHA-512 (crypto/sha512, FIPS 180-4) -/

/-- Right rotation of a 64-bit word. -/
def rotr64 (n x : Nat) : Nat := ((x >>> n) ||| (x <<< (64 - n))) % (2 ^ 64)

/-- SHA-512 initial hash value. -/
def sha512IV : Hash8 :=
  ⟨7640891576956012808, 13503953896175478587, 4354685564936845355, 11912009170470909681,
   5840696475078001361, 11170449401992604703, 2270897969802886507, 6620516959819538809⟩

/-- The 80 SHA-512 round constants. -/
def sha512K : List Nat :=
  [4794697086780616226, 8158064640168781261, 13096744586834688815, 16840607885511220156,
   4131703408338449720, 6480981068601479193, 10538285296894168987, 12329834152419229976,
   15566598209576043074, 1334009975649890238, 2608012711638119052, 6128411473006802146,
   8268148722764581231, 9286055187155687089, 11230858885718282805, 13951009754708518548,
   16472876342353939154, 17275323862435702243, 1135362057144423861, 2597628984639134821,
   3308224258029322869, 5365058923640841347, 6679025012923562964, 8573033837759648693,
   10970295158949994411, 12119686244451234320, 12683024718118986047, 13788192230050041572,
   14330467153632333762, 15395433587784984357, 489312712824947311, 1452737877330783856,
   2861767655752347644, 3322285676063803686, 5560940570517711597, 5996557281743188959,
   7280758554555802590, 8532644243296465576, 9350256976987008742, 10552545826968843579,
   11727347734174303076, 12113106623233404929, 14000437183269869457, 14369950271660146224,
   15101387698204529176, 15463397548674623760, 17586052441742319658, 1182934255886127544,
   1847814050463011016, 2177327727835720531, 2830643537854262169, 3796741975233480872,
   4115178125766777443, 5681478168544905931, 6601373596472566643, 7507060721942968483,
   8399075790359081724, 8693463985226723168, 9568029438360202098, 10144078919501101548,
   10430055236837252648, 11840083180663258601, 13761210420658862357, 14299343276471374635,
   14566680578165727644, 15097957966210449927, 16922976911328602910, 17689382322260857208,
   500013540394364858, 748580250866718886, 1242879168328830382, 1977374033974150939,
   2944078676154940804, 3659926193048069267, 4368137639120453308, 4836135668995329356,
   5532061633213252278, 6448918945643986474, 6902733635092675308, 7801388544844847127]

/-- SHA-512 message-schedule word `W[t]` for `t ≥ 16`. -/
def sha512NextW (ws : List Nat) : Nat :=
  let n := ws.length
  let s0 := fun x => (rotr64 1 x) ^^^ (rotr64 8 x) ^^^ (x >>> 7)
  let s1 := fun x => (rotr64 19 x) ^^^ (rotr64 61 x) ^^^ (x >>> 6)
  (s1 (ws.getD (n - 2) 0) + ws.getD (n - 7) 0 + s0 (ws.getD (n - 15) 0) + ws.getD (n - 16) 0) % (2 ^ 64)

/-- Extend a SHA-512 message schedule by `n` further words. -/
def sha512Extend (ws : List Nat) : Nat → List Nat
  | 0 => ws
  | n + 1 => sha512Extend (ws ++ [sha512NextW ws]) n

/-- One SHA-512 round. -/
def sha512Round (st : Hash8) (kw : Nat × Nat) : Hash8 :=
  let S1 := (rotr64 14 st.e) ^^^ (rotr64 18 st.e) ^^^ (rotr64 41 st.e)
  let ch := (st.e &&& st.f) ^^^ ((2 ^ 64 - 1 - st.e) &&& st.g)
  let t1 := (st.hh + S1 + ch + kw.1 + kw.2) % (2 ^ 64)
  let S0 := (rotr64 28 st.a) ^^^ (rotr64 34 st.a) ^^^ (rotr64 39 st.a)
  let maj := (st.a &&& st.b) ^^^ (st.a &&& st.c) ^^^ (st.b &&& st.c)
  let t2 := (S0 + maj) % (2 ^ 64)
  ⟨(t1 + t2) % (2 ^ 64), st.a, st.b, st.c, (st.d + t1) % (2 ^ 64), st.e, st.f, st.g⟩

/-- Compress one 128-byte block into the running SHA-512 state. -/
def sha512Compress (st : Hash8) (block : Bytes) : Hash8 :=
  let ws := sha512Extend ((chunks 8 block).map beCombine) 64
  let t := (ws.zip sha512K).foldl sha512Round st
  ⟨(st.a + t.a) % (2 ^ 64), (st.b + t.b) % (2 ^ 64), (st.c + t.c) % (2 ^ 64),
   (st.d + t.d) % (2 ^ 64), (st.e + t.e) % (2 ^ 64), (st.f + t.f) % (2 ^ 64),
   (st.g + t.g) % (2 ^ 64), (st.hh + t.hh) % (2 ^ 64)⟩

/-- SHA-512 digest (64 bytes) of a byte string, rendering `crypto/sha512`. -/
def sha512 (msg : Bytes) : Bytes :=
  let st := (chunks 128 (shaPad 128 16 msg)).foldl sha512Compress sha512IV
  beBytes 8 st.a ++ beBytes 8 st.b ++ beBytes 8 st.c ++ beBytes 8 st.d ++
  beBytes 8 st.e ++ beBytes 8 st.f ++ beBytes 8 st.g ++ beBytes 8 st.hh

/-! Section: internal/security/hmac.go -/

/-- Renders `hmacSHA512(key, message)`: the hand-rolled HMAC-SHA-512 of
`internal/security/hmac.go` — block size 128, keys longer than the block
pre-hashed, zero-padded key XORed with `0x36` / `0x5c`. -/
def hmacSHA512 (key message : Bytes) : Bytes :=
  let blockSize := 128
  let key := if blockSize < key.length then sha512 key else key
  let padded := key ++ List.replicate (blockSize - key.length) 0
  let ipad := padded.map (fun b => b ^^^ 0x36)
  let opad := padded.map (fun b => b ^^^ 0x5c)
  let innerHash := sha512 (ipad ++ message)
  sha512 (opad ++ innerHash)

/-- Renders `hmacEqual(a, b)`: constant-time comparison — false on length mismatch,
else OR together the XORs of corresponding bytes and compare with zero. -/
def hmacEqual (a b : Bytes) : Bool :=
  if a.length ≠ b.length then false
  else ((a.zip b).foldl (fun diff p => diff ||| (p.1 ^^^ p.2)) 0) == 0

/-! Section: encoding/hex -/

/-- Go's `encoding/hex` digit table (lower case). -/
def hextable : Bytes := strBytes "0123456789abcdef"

/-- Renders `hex.EncodeToString`: two lower-case hex digits per byte. -/
def hexEncode (bs : Bytes) : Bytes :=
  bs.flatMap (fun b => [hextable.getD (b >>> 4) 0, hextable.getD (b &&& 15) 0])

/-- The per-digit table of `hex.DecodeString`: digits, `a-f`, `A-F`. -/
def fromHexChar (c : Nat) : Option Nat :=
  if 48 ≤ c ∧ c ≤ 57 then some (c - 48)
  else if 97 ≤ c ∧ c ≤ 102 then some (c - 97 + 10)
  else if 65 ≤ c ∧ c ≤ 70 then some (c - 65 + 10)
  else none

/-- Renders `hex.DecodeString`: decode pairs of digits; fail on a bad digit or odd length. -/
def hexDecode : Bytes → Option Bytes
  | [] => some []
  | [_] => none
  | a :: b :: rest => do
      let hi ← fromHexChar a
      let lo ← fromHexChar b
      let tail ← hexDecode rest
      pure (((hi <<< 4) ||| lo) :: tail)

/-! Section: internal/security/token.go

Go string primitives are rendered at the byte level with ASCII semantics —
every value these functions are applied to in the repository (enrollment
codes, hex digests, API keys) is ASCII. -/

/-- ASCII white space, as recognised byte-wise by `unicode.IsSpace`
(`\t \n \v \f \r` and space; the non-ASCII spaces are outside the
byte-level model). -/
def isSpaceByte (b : Nat) : Bool :=
  b == 9 || b == 10 || b == 11 || b == 12 || b == 13 || b == 32

/-- Renders `strings.TrimSpace`: drop white space from both ends (only). -/
def trimSpace (s : Bytes) : Bytes :=
  ((s.dropWhile isSpaceByte).reverse.dropWhile isSpaceByte).reverse

/-- Renders `strings.ToUpper` on ASCII bytes. -/
def toUpper (s : Bytes) : Bytes :=
  s.map (fun b => if 97 ≤ b ∧ b ≤ 122 then b - 32 else b)

/-- Renders `strings.ReplaceAll` of dashes by nothing: remove every dash. -/
def removeDashes (s : Bytes) : Bytes := s.filter (fun b => b ≠ 45)

/-- Renders `hashCode(s)`: hex-encoded SHA-256, the common hashing helper of
`token.go`. -/
def hashCode (s : Bytes) : Bytes := hexEncode (sha256 s)

/-- Renders `HashEnrollmentCode`: `hashCode(ToUpper(ReplaceAll(TrimSpace(code), "-", "")))`. -/
def HashEnrollmentCode (code : Bytes) : Bytes :=
  hashCode (toUpper (removeDashes (trimSpace code)))

/-- Renders `HashAPIKey`: plain `hashCode`. -/
def HashAPIKey (key : Bytes) : Bytes := hashCode key

/-! Section: internal/security/platform.go -/

/-- Renders `Platform.Fingerprint`: hex SHA-256 of the platform public key. -/
def Fingerprint (publicKey : Bytes) : Bytes := hexEncode (sha256 publicKey)

/-- Renders `CredentialHash`: hex SHA-256 of the raw credential string. -/
def CredentialHash (credential : Bytes) : Bytes := hexEncode (sha256 credential)

/-- Renders `Platform.SignCredential`:
`v1.<agentID>.<hex(hmac_sha512(credKey, "agent-credential:" + agentID))>`. -/
def SignCredential (credKey agentID : Bytes) : Bytes :=
  let mac := hmacSHA512 credKey (strBytes "agent-credential:" ++ agentID)
  strBytes "v1." ++ agentID ++ strBytes "." ++ hexEncode mac

/-- The backwards scan of `VerifyCredential`: greatest index in `[3, i]`
holding a dot (byte 46), else `-1` (the loop runs `i` down to `3`). -/
def dotScan (cred : Bytes) (i : Nat) : Int :=
  if i < 3 then -1
  else if cred.getD i 0 == 46 then (i : Int)
  else dotScan cred (i - 1)
termination_by i
decreasing_by omega

/-- Renders `Platform.VerifyCredential`: parse `v1.<agentID>.<hexmac>`, recompute
the MAC and compare in constant time. -/
def VerifyCredential (credKey credential : Bytes) : Except String Bytes :=
  if credential.length < 5 ∨ credential.take 3 ≠ strBytes "v1." then
    .error "unsupported credential version"
  else
    let lastDot := dotScan credential (credential.length - 1)
    if lastDot ≤ 3 then .error "malformed credential"
    else
      let ld := lastDot.toNat
      let agentID := (credential.drop 3).take (ld - 3)
      let macHex := credential.drop (ld + 1)
      match hexDecode macHex with
      | none => .error "malformed credential MAC"
      | some providedMAC =>
          let expectedMAC := hmacSHA512 credKey (strBytes "agent-credential:" ++ agentID)
          if hmacEqual providedMAC expectedMAC then .ok agentID
          else .error "invalid credential"

/-! Section: internal/store (SQLite persistence)

The three tables are modelled as lists of rows; the `UNIQUE` constraints
appear as hypotheses where a theorem needs them.  Timestamps are modelled
as `Nat` instants (the store serialises them RFC3339; parsing is
lossless at second precision, which is all the model uses). -/

deriving instance DecidableEq for Except

/-- A row of the `enrollment_tokens` table. -/
structure EnrollmentToken where
  id : Bytes
  codeHash : Bytes
  tokenType : Bytes
  label : Bytes
  createdAt : Nat
  expiresAt : Nat
  usedAt : Option Nat
  usedBy : Option Bytes
deriving Repr, DecidableEq

/-- A row of the `agents` table. -/
structure AgentRecord where
  id : Bytes
  name : Bytes
  hostname : Bytes
  os : Bytes
  arch : Bytes
  credentialHash : Bytes
  enrolledAt : Nat
  lastSeen : Nat
deriving Repr, DecidableEq

/-- Renders `SQLiteStore.ConsumeEnrollmentToken(codeHash, agentID)` as a state
transformer over the `enrollment_tokens` table. `now` is the single
current instant of the call.  The transaction: select the row by
`code_hash` (absent → `(nil, nil)`); reject a used row, then an expired
row (`time.Now().After(expiresAt)`), both rolling back; otherwise update
`used_at`/`used_by` on the row by primary key, commit, and return the row
as selected (before the update). -/
def consumeEnrollmentToken (now : Nat) (tokens : List EnrollmentToken)
    (codeHash agentID : Bytes) :
    Except String (Option EnrollmentToken) × List EnrollmentToken :=
  match tokens.find? (fun t => t.codeHash == codeHash) with
  | none => (.ok none, tokens)
  | some t =>
      if t.usedAt.isSome then (.error "enrollment token already used", tokens)
      else if t.expiresAt < now then (.error "enrollment token expired", tokens)
      else
        (.ok (some t),
         tokens.map (fun u =>
           if u.id == t.id then { u with usedAt := some now, usedBy := some agentID } else u))

/-- Renders `SQLiteStore.CreateAgent`: `INSERT INTO agents` — fails exactly when
the `id` primary key or the `credential_hash UNIQUE` constraint is
violated, else appends the row. -/
def createAgent (agents : List AgentRecord) (a : AgentRecord) :
    Except String (List AgentRecord) :=
  if agents.any (fun b => b.id == a.id || b.credentialHash == a.credentialHash) then
    .error "UNIQUE constraint failed"
  else .ok (agents ++ [a])

/-! Section: cmd/server — live-agents map (handler_agent.go)

The `agents` map of `Server` is modelled as an association list with
map semantics (`lookup` finds the unique binding).  Connections are
identified by `Nat` handles; `closed` records every handle on which
`conn.Close()` has been called. -/

/-- The registration payload fields the server consumes
(`protocol.Registration`; telemetry fields not read by the handler are
omitted). `displayCount` is Go `int`. -/
structure Registration where
  name : Bytes
  hostname : Bytes
  os : Bytes
  osVersion : Bytes
  arch : Bytes
  credential : Bytes
  displayCount : Int
deriving Repr, DecidableEq

/-- The in-memory live-agent entry (`LiveAgent`), restricted to the
fields the modelled handlers read or write. -/
structure LiveAgent where
  id : Bytes
  name : Bytes
  os : Bytes
  arch : Bytes
  status : Bytes
  displayCount : Int
  conn : Nat
deriving Repr, DecidableEq

/-- Renders `newLiveAgent(enrolled, reg, remoteAddr, displayCount, conn)`. -/
def newLiveAgent (enrolled : AgentRecord) (reg : Registration)
    (displayCount : Int) (conn : Nat) : LiveAgent :=
  { id := enrolled.id, name := reg.name, os := reg.os, arch := reg.arch,
    status := strBytes "online", displayCount := displayCount, conn := conn }

/-- Server broker state: the live-agents map plus the set of closed
connection handles (to observe `conn.Close()` calls). -/
structure ServerState where
  agents : List (Bytes × LiveAgent)
  closed : List Nat
deriving Repr, DecidableEq

/-- The empty broker state. -/
def emptyServer : ServerState := ⟨[], []⟩

/-- Go map assignment `m[k] = v`: replace the binding for `k` (or add it). -/
def mapInsert (m : List (Bytes × LiveAgent)) (k : Bytes) (v : LiveAgent) :
    List (Bytes × LiveAgent) :=
  if m.any (fun p => p.1 == k) then
    m.map (fun p => if p.1 == k then (k, v) else p)
  else m ++ [(k, v)]

/-- Go map deletion `delete(m, k)`. -/
def mapDelete (m : List (Bytes × LiveAgent)) (k : Bytes) :
    List (Bytes × LiveAgent) :=
  m.filter (fun p => p.1 ≠ k)

/-- Go map lookup. -/
def mapLookup (m : List (Bytes × LiveAgent)) (k : Bytes) : Option LiveAgent :=
  (m.find? (fun p => p.1 == k)).map (·.2)

/-- The successful-registration step of `handleAgent` (lines 71–90):
clamp the display count to at least 1, build the live entry, and store it
under the enrolled agent id — `s.agents[agent.ID] = agent` and nothing
else: no prior entry is looked up and no prior connection is closed. -/
def registerLiveAgent (st : ServerState) (enrolled : AgentRecord)
    (reg : Registration) (conn : Nat) : ServerState :=
  let displayCount := if reg.displayCount < 1 then 1 else reg.displayCount
  let agent := newLiveAgent enrolled reg displayCount conn
  { st with agents := mapInsert st.agents agent.id agent }

/-- The deferred teardown of `handleAgent` (lines 92–99), run when a
connection's read loop ends: `delete(s.agents, agent.ID)` —
unconditionally by id — then close this connection. -/
def teardownLiveAgent (st : ServerState) (agentID : Bytes) (conn : Nat) :
    ServerState :=
  { agents := mapDelete st.agents agentID, closed := conn :: st.closed }

/-! Section: cmd/server — POST /api/enroll (handler_api.go, handleEnroll)

HTTP method/body-decoding plumbing is outside the model; a request is the
decoded body.  `ReadCACert` (a file read) is an environment oracle
passed as `caRead`; `tlsPathsPresent` is `s.tlsPaths != nil`, which
`main.go` sets exactly when the server runs in self-signed TLS mode. -/

/-- Decoded body of `POST /api/enroll`. -/
structure EnrollReq where
  code : Bytes
  name : Bytes
  hostname : Bytes
  os : Bytes
  arch : Bytes
deriving Repr, DecidableEq

/-- The HTTP response of `handleEnroll`: an error status with its exact
JSON body, or the 200 response fields. -/
inductive EnrollResponse where
  | err (status : Nat) (body : Bytes)
  | ok (agentId credential fingerprint : Bytes) (caCert : Option Bytes)
deriving Repr, DecidableEq

/-- The HTTP status of an `EnrollResponse` (success responds 200). -/
def respStatus : EnrollResponse → Nat
  | .err s _ => s
  | .ok _ _ _ _ => 200

/-- The error body written by `http.Error`: a JSON object with one `error` field. -/
def errorBody (msg : Bytes) : Bytes :=
  strBytes "\x7b\"error\":\"" ++ msg ++ strBytes "\"\x7d"

/-- Renders `Server.handleEnroll` on a decoded request: require a code, hash it,
derive the deterministic agent id, consume the token (any error → 403
with the error text, missing row → 403 invalid code), sign the
credential, persist the agent (insert failure → 500 after the token was
already consumed), and reply 200 with the credential material and, when
the self-signed CA can be read and is non-empty, the CA PEM. -/
def handleEnroll (credKey publicKey : Bytes) (tlsPathsPresent : Bool)
    (caRead : Option Bytes) (now : Nat) (tokens : List EnrollmentToken)
    (agents : List AgentRecord) (req : EnrollReq) :
    EnrollResponse × List EnrollmentToken × List AgentRecord :=
  if req.code = [] then
    (.err 400 (errorBody (strBytes "enrollment code required")), tokens, agents)
  else
    let codeHash := HashEnrollmentCode req.code
    let fingerprint := Fingerprint publicKey
    let agentID := (HashAPIKey (req.code ++ fingerprint)).take 16
    match consumeEnrollmentToken now tokens codeHash agentID with
    | (.error e, tokens') => (.err 403 (errorBody (strBytes e)), tokens', agents)
    | (.ok none, tokens') =>
        (.err 403 (errorBody (strBytes "invalid enrollment code")), tokens', agents)
    | (.ok (some _token), tokens') =>
        let credential := SignCredential credKey agentID
        let credHash := CredentialHash credential
        let agentRec : AgentRecord :=
          { id := agentID, name := req.name, hostname := req.hostname,
            os := req.os, arch := req.arch, credentialHash := credHash,
            enrolledAt := now, lastSeen := now }
        match createAgent agents agentRec with
        | .error _ =>
            (.err 500 (errorBody (strBytes "enrollment failed")), tokens', agents)
        | .ok agents' =>
            let caCert := if tlsPathsPresent then caRead.getD [] else []
            (.ok agentID credential fingerprint
               (if caCert ≠ [] then some caCert else none),
             tokens', agents')

/-! Section: internal/protocol — RFC 6455 frame codec (ws.go)

The byte stream is a `Bytes` prefix; reading returns the decoded frame
and the unread remainder, `none` on a short read. -/

/-- Renders `io.ReadFull`: exactly `n` bytes or failure. -/
def takeExact (n : Nat) (l : Bytes) : Option (Bytes × Bytes) :=
  if n ≤ l.length then some (l.take n, l.drop n) else none

/-- The reader's unmasking loop: `payload[i] ^= maskKey[i%4]`. -/
def unmask (maskKey : Bytes) : Nat → Bytes → Bytes
  | _, [] => []
  | i, b :: bs => (b ^^^ maskKey.getD (i % 4) 0) :: unmask maskKey (i + 1) bs

/-- The client writer's masking loop: `frame[off+i] = b ^ maskKey[i&3]`. -/
def clientMask (maskKey : Bytes) : Nat → Bytes → Bytes
  | _, [] => []
  | i, b :: bs => (b ^^^ maskKey.getD (i &&& 3) 0) :: clientMask maskKey (i + 1) bs

/-- Renders `ReadFrame`: 2-byte header, 7/16/64-bit length, optional 4-byte mask,
payload, unmask in place.  Returns `(opcode, payload, rest)`. -/
def ReadFrame (stream : Bytes) : Option (Nat × Bytes × Bytes) := do
  let (header, s1) ← takeExact 2 stream
  let b0 := header.getD 0 0
  let b1 := header.getD 1 0
  let opcode := b0 &&& 0x0F
  let masked := (b1 &&& 0x80) != 0
  let length7 := b1 &&& 0x7F
  let (length, s2) ←
    if length7 == 126 then do
      let (ext, s2) ← takeExact 2 s1
      pure (beCombine ext, s2)
    else if length7 == 127 then do
      let (ext, s2) ← takeExact 8 s1
      pure (beCombine ext, s2)
    else pure (length7, s1)
  let (maskKey, s3) ← if masked then takeExact 4 s2 else pure ([], s2)
  let (payload, s4) ← takeExact length s3
  pure (opcode, (if masked then unmask maskKey 0 payload else payload), s4)

/-- Renders `WriteServerFrame`: unmasked `FIN|opcode` frame with the narrowest
length encoding (`byte(x)` truncation rendered as `% 256`). -/
def WriteServerFrame (opcode : Nat) (payload : Bytes) : Bytes :=
  let length := payload.length
  let header :=
    if length < 126 then [0x80 ||| opcode, length]
    else if length < 65536 then
      [0x80 ||| opcode, 126, (length >>> 8) % 256, length % 256]
    else [0x80 ||| opcode, 127] ++ beBytes 8 length
  header ++ payload

/-- Renders `WriteClientFrame`: masked `FIN|opcode` frame; the random 4-byte mask
key is a parameter. -/
def WriteClientFrame (maskKey : Bytes) (opcode : Nat) (payload : Bytes) : Bytes :=
  let length := payload.length
  let header :=
    if length < 126 then [0x80 ||| opcode, length ||| 0x80]
    else if length < 65536 then
      [0x80 ||| opcode, 126 ||| 0x80, (length >>> 8) % 256, length % 256]
    else [0x80 ||| opcode, 127 ||| 0x80] ++ beBytes 8 length
  header ++ maskKey ++ clientMask maskKey 0 payload

/-! Section: RFC 2104 reference HMAC (the spec side of the C8 refinement) -/

/-- The reference HMAC-SHA-512 of RFC 2104, written from the RFC's
description: `K'` is the key zero-padded to the 128-byte block `B` (a key
longer than `B` is first replaced by its SHA-512 hash), and the result is
`H((K' ⊕ opad) ∥ H((K' ⊕ ipad) ∥ m))` where `ipad`/`opad` are the bytes
`0x36`/`0x5c` repeated `B` times. -/
def hmacSHA512RFC (key message : Bytes) : Bytes :=
  let B := 128
  let K0 := if key.length ≤ B then key else sha512 key
  let Kp := K0 ++ List.replicate (B - K0.length) 0
  let ipadBlock := List.replicate B 0x36
  let opadBlock := List.replicate B 0x5c
  sha512 ((List.zipWith (· ^^^ ·) Kp opadBlock) ++
    sha512 ((List.zipWith (· ^^^ ·) Kp ipadBlock) ++ message))

/-! Section: Serialized consumption sequences (C9)

SQLite serializes the consume transactions (`SetMaxOpenConns(1)` and a
write transaction), so `N` concurrent callers execute in some order; a
concurrent execution is modelled as an arbitrary sequence of atomic
calls, each with its own time and agent id, against the same code hash. -/

/-- Run a sequence of `ConsumeEnrollmentToken` calls `(now, agent_id)`
against the same code hash, threading the store state. -/
def consumeSeq (codeHash : Bytes) (tokens : List EnrollmentToken) :
    List (Nat × Bytes) →
      List (Except String (Option EnrollmentToken)) × List EnrollmentToken
  | [] => ([], tokens)
  | (now, aid) :: rest =>
      let r := consumeEnrollmentToken now tokens codeHash aid
      let rs := consumeSeq codeHash r.2 rest
      (r.1 :: rs.1, rs.2)

/-- A call succeeded: it returned the consumed token. -/
def isConsumeSuccess : Except String (Option EnrollmentToken) → Bool
  | .ok (some _) => true
  | _ => false

/-- The `ca_certificate` field of an enrollment response. -/
def respCACert : EnrollResponse → Option Bytes
  | .err _ _ => none
  | .ok _ _ _ ca => ca

/-! Section: Generic lemmas -/

theorem beBytes_length (w x : Nat) : (beBytes w x).length = w := by
  induction w generalizing x with
  | zero => rfl
  | succ w ih => simp [beBytes, ih]

theorem beBytes_lt (w x : Nat) : ∀ b ∈ beBytes w x, b < 256 := by
  induction w generalizing x with
  | zero => simp [beBytes]
  | succ w ih =>
    intro b hb
    simp only [beBytes, List.mem_append, List.mem_singleton] at hb
    rcases hb with hb | hb
    · exact ih _ b hb
    · omega

theorem beCombine_append_one (l : Bytes) (b : Nat) :
    beCombine (l ++ [b]) = beCombine l * 256 + b := by
  simp [beCombine, List.foldl_append]

theorem beCombine_beBytes (w x : Nat) : beCombine (beBytes w x) = x % 256 ^ w := by
  induction w generalizing x with
  | zero => simp [beBytes, beCombine, Nat.mod_one]
  | succ w ih =>
    rw [beBytes, beCombine_append_one, ih]
    have h1 : (256 : Nat) ^ (w + 1) = 256 * 256 ^ w := by ring
    rw [h1, Nat.mod_mul]
    omega

theorem mapLookup_insert (m : List (Bytes × LiveAgent)) (k : Bytes) (v : LiveAgent) :
    mapLookup (mapInsert m k v) k = some v := by
  unfold mapLookup mapInsert
  by_cases h : (m.any (fun p => p.1 == k)) = true
  · rw [if_pos h, List.find?_map]
    have hpred : ((fun p : Bytes × LiveAgent => p.1 == k) ∘
        (fun p => if p.1 == k then (k, v) else p)) = fun p : Bytes × LiveAgent => p.1 == k := by
      funext p
      by_cases hp : p.1 = k <;> simp [hp]
    rw [hpred]
    obtain ⟨p0, hmem, hp0⟩ := List.any_eq_true.mp h
    have hsome : (m.find? (fun p : Bytes × LiveAgent => p.1 == k)).isSome :=
      List.find?_isSome.mpr ⟨p0, hmem, hp0⟩
    obtain ⟨p1, hfind⟩ := Option.isSome_iff_exists.mp hsome
    have hp1 := List.find?_some hfind
    rw [hfind]
    have hp1' : p1.1 = k := by simpa using hp1
    simp [hp1']
  · rw [if_neg h]
    have hall : ∀ p ∈ m, ¬ (p.1 == k) = true := by
      intro p hp hpk
      exact h (List.any_eq_true.mpr ⟨p, hp, hpk⟩)
    rw [List.find?_append, List.find?_eq_none.mpr hall]
    simp

/-- Claim C1 — `ConsumeEnrollmentToken(code_hash, agent_id)`: no row with the
code hash → nil token and no error (store unchanged); a used row → error
"enrollment token already used" with the store unchanged; an expired row →
error "enrollment token expired" with the store unchanged; otherwise it
returns the consumed token and the stored row now carries
`used_at = now`, `used_by = agent_id`, all other rows untouched. -/
theorem consume_token_spec (now : Nat) (tokens : List EnrollmentToken)
    (codeHash agentID : Bytes) :
    (tokens.find? (fun t => t.codeHash == codeHash) = none →
      consumeEnrollmentToken now tokens codeHash agentID = (.ok none, tokens)) ∧
    (∀ t, tokens.find? (fun t => t.codeHash == codeHash) = some t →
      (t.usedAt.isSome →
        consumeEnrollmentToken now tokens codeHash agentID =
          (.error "enrollment token already used", tokens)) ∧
      (t.usedAt = none → t.expiresAt < now →
        consumeEnrollmentToken now tokens codeHash agentID =
          (.error "enrollment token expired", tokens)) ∧
      (t.usedAt = none → ¬ t.expiresAt < now →
        (consumeEnrollmentToken now tokens codeHash agentID).1 = .ok (some t) ∧
        (consumeEnrollmentToken now tokens codeHash agentID).2.find?
            (fun u => u.codeHash == codeHash) =
          some { t with usedAt := some now, usedBy := some agentID } ∧
        ∀ u ∈ (consumeEnrollmentToken now tokens codeHash agentID).2,
          u.id ≠ t.id → u ∈ tokens)) := by
  constructor
  · intro h
    simp [consumeEnrollmentToken, h]
  · intro t hfind
    refine ⟨?_, ?_, ?_⟩
    · intro hused
      simp [consumeEnrollmentToken, hfind, hused]
    · intro hunused hexp
      simp [consumeEnrollmentToken, hfind, hunused, hexp]
    · intro hunused hexp
      refine ⟨?_, ?_, ?_⟩
      · simp [consumeEnrollmentToken, hfind, hunused, hexp]
      · simp only [consumeEnrollmentToken, hfind, hunused, Option.isSome_none,
          Bool.false_eq_true, if_false, hexp, if_neg, Option.isSome]
        rw [List.find?_map]
        have hpred : ((fun u : EnrollmentToken => u.codeHash == codeHash) ∘
            (fun u => if u.id == t.id then
              { u with usedAt := some now, usedBy := some agentID } else u)) =
            fun u : EnrollmentToken => u.codeHash == codeHash := by
          funext u
          by_cases hu : u.id = t.id <;> simp [hu]
        rw [hpred, hfind]
        simp
      · intro u hu hne
        simp only [consumeEnrollmentToken, hfind, hunused, hexp] at hu
        simp only [Option.isSome_none, Bool.false_eq_true, if_false, if_neg hexp,
          List.mem_map] at hu
        obtain ⟨v, hv, hvu⟩ := hu
        by_cases hid : v.id = t.id
        · exfalso
          apply hne
          rw [← hvu]
          simp [hid]
        · rw [← hvu, if_neg (by simpa using hid)]
          exact hv

/-- Concrete instantiation of the claim C1 theorem: a single unused, unexpired
token is consumed at time 100 by agent "agent"; the stored row afterwards
carries `used_at = 100`, `used_by = "agent"`. -/
theorem consume_token_spec_witness :
    (consumeEnrollmentToken 100
      [{ id := [116], codeHash := [104], tokenType := [97], label := [],
         createdAt := 0, expiresAt := 200, usedAt := none, usedBy := none }]
      [104] [97]).1 = .ok (some
      { id := [116], codeHash := [104], tokenType := [97], label := [],
        createdAt := 0, expiresAt := 200, usedAt := none, usedBy := none }) ∧
    (consumeEnrollmentToken 100
      [{ id := [116], codeHash := [104], tokenType := [97], label := [],
         createdAt := 0, expiresAt := 200, usedAt := none, usedBy := none }]
      [104] [97]).2.find? (fun u => u.codeHash == [104]) = some
      { id := [116], codeHash := [104], tokenType := [97], label := [],
        createdAt := 0, expiresAt := 200, usedAt := some 100, usedBy := some [97] } := by
  have h := (consume_token_spec 100
    [{ id := [116], codeHash := [104], tokenType := [97], label := [],
       createdAt := 0, expiresAt := 200, usedAt := none, usedBy := none }]
    [104] [97]).2
    { id := [116], codeHash := [104], tokenType := [97], label := [],
      createdAt := 0, expiresAt := 200, usedAt := none, usedBy := none }
    (by decide)
  obtain ⟨h1, h2, _⟩ := (h.2.2 rfl (by decide))
  exact ⟨h1, h2⟩

/-- Claim C4 — evaluation of the live-map code at the failing trace: agent id
"a" registers on connection 1, then registers again on connection 2 (the
claim requires connection 1 to be closed at this point — it is not), and
then connection 1's read loop ends and its deferred teardown runs
(`delete(s.agents, agent.ID)` is unconditional, so it removes connection
2's entry, which the claim says cannot happen). -/
theorem second_registration_trace_eval :
    (mapLookup (registerLiveAgent (registerLiveAgent emptyServer
        { id := [97], name := [], hostname := [], os := [], arch := [],
          credentialHash := [], enrolledAt := 0, lastSeen := 0 }
        { name := [], hostname := [], os := [], osVersion := [], arch := [],
          credential := [], displayCount := 1 } 1)
        { id := [97], name := [], hostname := [], os := [], arch := [],
          credentialHash := [], enrolledAt := 0, lastSeen := 0 }
        { name := [], hostname := [], os := [], osVersion := [], arch := [],
          credential := [], displayCount := 1 } 2).agents [97]).map (·.conn) = some 2 ∧
    (registerLiveAgent (registerLiveAgent emptyServer
        { id := [97], name := [], hostname := [], os := [], arch := [],
          credentialHash := [], enrolledAt := 0, lastSeen := 0 }
        { name := [], hostname := [], os := [], osVersion := [], arch := [],
          credential := [], displayCount := 1 } 1)
        { id := [97], name := [], hostname := [], os := [], arch := [],
          credentialHash := [], enrolledAt := 0, lastSeen := 0 }
        { name := [], hostname := [], os := [], osVersion := [], arch := [],
          credential := [], displayCount := 1 } 2).closed = [] ∧
    mapLookup (teardownLiveAgent (registerLiveAgent (registerLiveAgent emptyServer
        { id := [97], name := [], hostname := [], os := [], arch := [],
          credentialHash := [], enrolledAt := 0, lastSeen := 0 }
        { name := [], hostname := [], os := [], osVersion := [], arch := [],
          credential := [], displayCount := 1 } 1)
        { id := [97], name := [], hostname := [], os := [], arch := [],
          credentialHash := [], enrolledAt := 0, lastSeen := 0 }
        { name := [], hostname := [], os := [], osVersion := [], arch := [],
          credential := [], displayCount := 1 } 2) [97] 1).agents [97] = none := by
  decide

/-- Claim C10 — every live-agent entry installed by a successful registration
has `display_count ≥ 1`: a payload value below 1 is stored as 1, any other
value is stored unchanged. -/
theorem live_display_count_min_one (st : ServerState) (enrolled : AgentRecord)
    (reg : Registration) (conn : Nat) :
    ∃ la, mapLookup (registerLiveAgent st enrolled reg conn).agents enrolled.id = some la ∧
      1 ≤ la.displayCount ∧
      (reg.displayCount < 1 → la.displayCount = 1) ∧
      (¬ reg.displayCount < 1 → la.displayCount = reg.displayCount) := by
  refine ⟨newLiveAgent enrolled reg
    (if reg.displayCount < 1 then 1 else reg.displayCount) conn, ?_, ?_, ?_, ?_⟩
  · exact mapLookup_insert st.agents enrolled.id _
  · by_cases h : reg.displayCount < 1
    · simp [newLiveAgent, h]
    · simp only [newLiveAgent, if_neg h]
      omega
  · intro h
    simp [newLiveAgent, h]
  · intro h
    simp [newLiveAgent, h]

/-- Concrete instantiation of the claim C10 theorem: a registration payload
reporting 0 displays is installed with `display_count = 1`. -/
theorem live_display_count_min_one_witness :
    ∃ la, mapLookup (registerLiveAgent emptyServer
      { id := [97], name := [], hostname := [], os := [], arch := [],
        credentialHash := [], enrolledAt := 0, lastSeen := 0 }
      { name := [], hostname := [], os := [], osVersion := [], arch := [],
        credential := [], displayCount := 0 } 7).agents [97] = some la ∧
      la.displayCount = 1 := by
  obtain ⟨la, hl, _, h3, _⟩ := live_display_count_min_one emptyServer
    { id := [97], name := [], hostname := [], os := [], arch := [],
      credentialHash := [], enrolledAt := 0, lastSeen := 0 }
    { name := [], hostname := [], os := [], osVersion := [], arch := [],
      credential := [], displayCount := 0 } 7
  exact ⟨la, hl, h3 (by decide)⟩

/-- Claim C3 — evaluation of `HashEnrollmentCode` at the failing input: the
variant "ABCD EFGH" of the raw code "ABCDEFGH" (interior whitespace
inserted) does *not* hash equal, because `strings.TrimSpace` removes only
leading and trailing whitespace. -/
theorem hash_code_interior_space_eval :
    HashEnrollmentCode (strBytes "ABCD EFGH") ≠ HashEnrollmentCode (strBytes "ABCDEFGH") := by
  decide

/-! Section: Frame-codec lemmas -/

theorem takeExact_append {n : Nat} (l r : Bytes) (h : l.length = n) :
    takeExact n (l ++ r) = some (l, r) := by
  subst h
  have hle : l.length ≤ (l ++ r).length := by simp
  simp [takeExact, hle, List.take_left, List.drop_left]

theorem land_three_eq_mod_four (i : Nat) : i &&& 3 = i % 4 := by
  simpa using Nat.and_pow_two_sub_one_eq_mod i 2

theorem clientMask_length (key : Bytes) (i : Nat) (l : Bytes) :
    (clientMask key i l).length = l.length := by
  induction l generalizing i with
  | nil => rfl
  | cons b bs ih => simp [clientMask, ih (i + 1)]

theorem unmask_clientMask (key : Bytes) (i : Nat) (l : Bytes) :
    unmask key i (clientMask key i l) = l := by
  induction l generalizing i with
  | nil => rfl
  | cons b bs ih =>
    simp only [clientMask, unmask, ih (i + 1), land_three_eq_mod_four]
    rw [Nat.xor_assoc, Nat.xor_self, Nat.xor_zero]

theorem opcode_mask_bits : ∀ op < 16, (128 ||| op) &&& 15 = op := by decide

theorem small_byte_not_masked : ∀ b < 128, ((b &&& 128) != 0) = false := by decide

theorem small_byte_len7 : ∀ b < 128, b &&& 127 = b := by decide

theorem small_byte_or_mask : ∀ b < 128,
    (((b ||| 128) &&& 128) != 0) = true ∧ (b ||| 128) &&& 127 = b := by decide

theorem takeExact_cons_cons (a b : Nat) (t : Bytes) :
    takeExact 2 (a :: b :: t) = some ([a, b], t) := by
  simp [takeExact]

theorem readFrame_writeServer (op : Nat) (payload rest : Bytes)
    (hop : op < 16) (hlen : payload.length < 2 ^ 64) :
    ReadFrame (WriteServerFrame op payload ++ rest) = some (op, payload, rest) := by
  have hmaskbit := opcode_mask_bits op hop
  by_cases h126 : payload.length < 126
  · have hb : payload.length < 128 := by omega
    have h6 : ((payload.length == 126) = false) := by simp; omega
    have h7 : ((payload.length == 127) = false) := by simp; omega
    simp only [WriteServerFrame, if_pos h126]
    have hs : ([128 ||| op, payload.length] ++ payload) ++ rest =
        (128 ||| op) :: payload.length :: (payload ++ rest) := by simp
    rw [hs]
    simp only [ReadFrame, takeExact_cons_cons, Option.bind_eq_bind, Option.pure_def, Option.some_bind,
      List.getD_cons_zero, List.getD_cons_succ, hmaskbit,
      small_byte_not_masked payload.length hb, small_byte_len7 payload.length hb,
      h6, h7, Bool.false_eq_true, if_false,
      takeExact_append payload rest rfl]
  · by_cases h65536 : payload.length < 65536
    · have h126' : ¬ payload.length < 126 := h126
      simp only [WriteServerFrame, if_neg h126', if_pos h65536]
      have hs : ([128 ||| op, 126, (payload.length >>> 8) % 256, payload.length % 256] ++
          payload) ++ rest =
          (128 ||| op) :: 126 :: ((payload.length >>> 8) % 256 :: payload.length % 256 ::
            (payload ++ rest)) := by simp
      rw [hs]
      have hcomb : beCombine [(payload.length >>> 8) % 256, payload.length % 256] =
          payload.length := by
        simp only [beCombine, List.foldl_cons, List.foldl_nil, Nat.shiftRight_eq_div_pow]
        omega
      simp only [ReadFrame, takeExact_cons_cons, Option.bind_eq_bind, Option.pure_def, Option.some_bind,
        List.getD_cons_zero, List.getD_cons_succ, hmaskbit]
      norm_num
      simp only [hcomb, Option.some_bind, takeExact_append payload rest rfl]
      rfl
    · simp only [WriteServerFrame, if_neg h126, if_neg h65536]
      have hs : ([128 ||| op, 127] ++ beBytes 8 payload.length ++ payload) ++ rest =
          (128 ||| op) :: 127 :: (beBytes 8 payload.length ++ (payload ++ rest)) := by simp
      rw [hs]
      have hcomb : beCombine (beBytes 8 payload.length) = payload.length := by
        rw [beCombine_beBytes]
        have : (256 : Nat) ^ 8 = 2 ^ 64 := by norm_num
        rw [this]
        omega
      simp only [ReadFrame, takeExact_cons_cons, Option.bind_eq_bind, Option.pure_def, Option.some_bind,
        List.getD_cons_zero, List.getD_cons_succ, hmaskbit]
      norm_num
      simp only [takeExact_append (beBytes 8 payload.length) (payload ++ rest)
          (beBytes_length 8 payload.length), Option.some_bind, hcomb,
        takeExact_append payload rest rfl]
      rfl

theorem readFrame_writeClient (maskKey : Bytes) (op : Nat) (payload rest : Bytes)
    (hop : op < 16) (hlen : payload.length < 2 ^ 64) (hkey : maskKey.length = 4) :
    ReadFrame (WriteClientFrame maskKey op payload ++ rest) = some (op, payload, rest) := by
  have hmaskbit := opcode_mask_bits op hop
  have hmasked := takeExact_append maskKey (clientMask maskKey 0 payload ++ rest) hkey
  have hpay : takeExact payload.length (clientMask maskKey 0 payload ++ rest) =
      some (clientMask maskKey 0 payload, rest) :=
    takeExact_append _ rest (clientMask_length maskKey 0 payload)
  have hun := unmask_clientMask maskKey 0 payload
  by_cases h126 : payload.length < 126
  · have hb : payload.length < 128 := by omega
    have h6 : ((payload.length == 126) = false) := by simp; omega
    have h7 : ((payload.length == 127) = false) := by simp; omega
    obtain ⟨hm1, hm2⟩ := small_byte_or_mask payload.length hb
    simp only [WriteClientFrame, if_pos h126]
    have hs : ([128 ||| op, payload.length ||| 128] ++ maskKey ++
        clientMask maskKey 0 payload) ++ rest =
        (128 ||| op) :: (payload.length ||| 128) ::
          (maskKey ++ (clientMask maskKey 0 payload ++ rest)) := by simp
    rw [hs]
    simp only [ReadFrame, takeExact_cons_cons, Option.bind_eq_bind, Option.pure_def,
      Option.some_bind, List.getD_cons_zero, List.getD_cons_succ, hmaskbit,
      hm1, hm2, h6, h7, Bool.false_eq_true, if_false, if_true, hmasked, hpay, hun]
  · by_cases h65536 : payload.length < 65536
    · simp only [WriteClientFrame, if_neg h126, if_pos h65536]
      have hs : ([128 ||| op, 126 ||| 128, (payload.length >>> 8) % 256,
          payload.length % 256] ++ maskKey ++ clientMask maskKey 0 payload) ++ rest =
          (128 ||| op) :: (126 ||| 128) :: ((payload.length >>> 8) % 256 ::
            payload.length % 256 :: (maskKey ++ (clientMask maskKey 0 payload ++ rest))) := by
        simp
      rw [hs]
      have hcomb : beCombine [(payload.length >>> 8) % 256, payload.length % 256] =
          payload.length := by
        simp only [beCombine, List.foldl_cons, List.foldl_nil, Nat.shiftRight_eq_div_pow]
        omega
      have hb : (126 ||| 128 : Nat) = 254 := by decide
      have ht1 : (((254 : Nat) &&& 128) != 0) = true := by decide
      have ht2 : (254 : Nat) &&& 127 = 126 := by decide
      simp only [ReadFrame, takeExact_cons_cons, Option.bind_eq_bind, Option.pure_def,
        Option.some_bind, List.getD_cons_zero, List.getD_cons_succ, hmaskbit,
        hb, ht1, ht2, beq_self_eq_true, if_true, hcomb, hmasked, hpay, hun]
    · simp only [WriteClientFrame, if_neg h126, if_neg h65536]
      have hs : ([128 ||| op, 127 ||| 128] ++ beBytes 8 payload.length ++ maskKey ++
          clientMask maskKey 0 payload) ++ rest =
          (128 ||| op) :: (127 ||| 128) :: (beBytes 8 payload.length ++
            (maskKey ++ (clientMask maskKey 0 payload ++ rest))) := by simp
      rw [hs]
      have hcomb : beCombine (beBytes 8 payload.length) = payload.length := by
        rw [beCombine_beBytes]
        have h8 : (256 : Nat) ^ 8 = 2 ^ 64 := by norm_num
        rw [h8]
        omega
      have hb : (127 ||| 128 : Nat) = 255 := by decide
      have ht1 : (((255 : Nat) &&& 128) != 0) = true := by decide
      have ht2 : (255 : Nat) &&& 127 = 127 := by decide
      have ht3 : (((127 : Nat) == 126)) = false := by decide
      simp only [ReadFrame, takeExact_cons_cons, Option.bind_eq_bind, Option.pure_def,
        Option.some_bind, List.getD_cons_zero, List.getD_cons_succ, hmaskbit,
        hb, ht1, ht2, ht3, beq_self_eq_true, Bool.false_eq_true, if_false, if_true,
        takeExact_append (beBytes 8 payload.length)
          (maskKey ++ (clientMask maskKey 0 payload ++ rest))
          (beBytes_length 8 payload.length), hcomb, hmasked, hpay, hun]

/-- Claim C7 — for every opcode (4-bit, per RFC 6455) and payload, a frame
written by `WriteServerFrame` is decoded by `ReadFrame` to the same opcode
and byte-identical payload (leaving the rest of the stream untouched); a
frame written by `WriteClientFrame` under any 4-byte mask key likewise;
and the writer selects the 7-bit, 16-bit or 64-bit length encoding for
payload lengths below 126, below 65536, or larger. -/
theorem frame_codec_roundtrip (op : Nat) (payload rest maskKey : Bytes)
    (hop : op < 16) (hlen : payload.length < 2 ^ 64) (hkey : maskKey.length = 4) :
    ReadFrame (WriteServerFrame op payload ++ rest) = some (op, payload, rest) ∧
    ReadFrame (WriteClientFrame maskKey op payload ++ rest) = some (op, payload, rest) ∧
    (payload.length < 126 →
      WriteServerFrame op payload = (128 ||| op) :: payload.length :: payload) ∧
    (126 ≤ payload.length → payload.length < 65536 →
      WriteServerFrame op payload =
        (128 ||| op) :: 126 :: payload.length / 256 :: payload.length % 256 :: payload) ∧
    (65536 ≤ payload.length →
      WriteServerFrame op payload =
        (128 ||| op) :: 127 :: (beBytes 8 payload.length ++ payload)) := by
  refine ⟨readFrame_writeServer op payload rest hop hlen,
    readFrame_writeClient maskKey op payload rest hop hlen hkey, ?_, ?_, ?_⟩
  · intro h
    simp [WriteServerFrame, h]
  · intro h1 h2
    have hn : ¬ payload.length < 126 := by omega
    have hdiv : (payload.length >>> 8) % 256 = payload.length / 256 := by
      rw [Nat.shiftRight_eq_div_pow]
      norm_num
      omega
    simp [WriteServerFrame, hn, h2, hdiv]
  · intro h
    have hn : ¬ payload.length < 126 := by omega
    have hn2 : ¬ payload.length < 65536 := by omega
    simp [WriteServerFrame, hn, hn2]

/-- Concrete instantiation of the claim C7 theorem: a 3-byte binary frame
(op 2), server- and client-written, decodes back to itself. -/
theorem frame_codec_roundtrip_witness :
    ReadFrame (WriteServerFrame 2 [1, 170, 187] ++ [9]) = some (2, [1, 170, 187], [9]) ∧
    ReadFrame (WriteClientFrame [7, 13, 200, 255] 2 [1, 170, 187] ++ [9]) =
      some (2, [1, 170, 187], [9]) := by
  obtain ⟨h1, h2, _⟩ := frame_codec_roundtrip 2 [1, 170, 187] [9] [7, 13, 200, 255]
    (by decide) (by decide) (by decide)
  exact ⟨h1, h2⟩

/-! Section: Hex and credential lemmas -/

theorem hexEncode_cons (b : Nat) (l : Bytes) :
    hexEncode (b :: l) =
      hextable.getD (b >>> 4) 0 :: hextable.getD (b &&& 15) 0 :: hexEncode l := by
  simp [hexEncode]

theorem hexEncode_length (l : Bytes) : (hexEncode l).length = 2 * l.length := by
  induction l with
  | nil => rfl
  | cons b bs ih =>
    rw [hexEncode_cons]
    simp only [List.length_cons, ih]
    omega

theorem hexPair_facts : ∀ b < 256,
    fromHexChar (hextable.getD (b >>> 4) 0) = some (b >>> 4) ∧
    fromHexChar (hextable.getD (b &&& 15) 0) = some (b &&& 15) ∧
    (((b >>> 4) <<< 4) ||| (b &&& 15)) = b ∧
    hextable.getD (b >>> 4) 0 ≠ 46 ∧ hextable.getD (b &&& 15) 0 ≠ 46 := by decide

theorem hexDecode_hexEncode (l : Bytes) (h : ∀ b ∈ l, b < 256) :
    hexDecode (hexEncode l) = some l := by
  induction l with
  | nil => rfl
  | cons b bs ih =>
    have hb : b < 256 := h b (List.mem_cons_self b bs)
    obtain ⟨h1, h2, h3, _, _⟩ := hexPair_facts b hb
    rw [hexEncode_cons]
    simp only [hexDecode, h1, h2, ih (fun x hx => h x (List.mem_cons_of_mem b hx)),
      Option.bind_eq_bind, Option.pure_def, Option.some_bind, h3]

theorem hexEncode_no_dot (l : Bytes) (h : ∀ b ∈ l, b < 256) :
    ∀ c ∈ hexEncode l, c ≠ 46 := by
  induction l with
  | nil => simp [hexEncode]
  | cons b bs ih =>
    intro c hc
    have hb : b < 256 := h b (List.mem_cons_self b bs)
    obtain ⟨_, _, _, h4, h5⟩ := hexPair_facts b hb
    rw [hexEncode_cons] at hc
    simp only [List.mem_cons] at hc
    rcases hc with hc | hc | hc
    · exact hc ▸ h4
    · exact hc ▸ h5
    · exact ih (fun x hx => h x (List.mem_cons_of_mem b hx)) c hc

theorem sha512_length (m : Bytes) : (sha512 m).length = 64 := by
  simp [sha512, beBytes_length]

theorem sha512_lt (m : Bytes) : ∀ b ∈ sha512 m, b < 256 := by
  intro b hb
  rw [sha512] at hb
  simp only [List.mem_append] at hb
  rcases hb with ((((((hb | hb) | hb) | hb) | hb) | hb) | hb) | hb <;>
    exact beBytes_lt _ _ b hb

theorem hmacSHA512_length (key msg : Bytes) : (hmacSHA512 key msg).length = 64 := by
  simp [hmacSHA512, sha512_length]

theorem hmacSHA512_lt (key msg : Bytes) : ∀ b ∈ hmacSHA512 key msg, b < 256 := by
  intro b hb
  exact sha512_lt _ b hb

theorem foldl_lor_xor_self (a : Bytes) (n : Nat) :
    ((a.zip a).foldl (fun diff p => diff ||| (p.1 ^^^ p.2)) n) = n := by
  induction a generalizing n with
  | nil => rfl
  | cons b bs ih =>
    simp only [List.zip_cons_cons, List.foldl_cons, Nat.xor_self, Nat.or_zero]
    exact ih n

theorem hmacEqual_self (a : Bytes) : hmacEqual a a = true := by
  simp [hmacEqual, foldl_lor_xor_self]

theorem dotScan_above (cred : Bytes) (k : Nat) (hk : 3 ≤ k) :
    ∀ i, k ≤ i → (∀ j, k < j → j ≤ i → cred.getD j 0 ≠ 46) →
      dotScan cred i = dotScan cred k := by
  intro i
  induction i with
  | zero => intro h1 _; omega
  | succ i ih =>
    intro hki hnodot
    by_cases he : k = i + 1
    · rw [he]
    · have h3 : ¬ (i + 1 < 3) := by omega
      rw [dotScan, if_neg h3,
        if_neg (by simpa using hnodot (i + 1) (by omega) (Nat.le_refl _))]
      simp only [Nat.add_sub_cancel]
      exact ih (by omega) (fun j hj1 hj2 => hnodot j hj1 (by omega))

theorem dotScan_at_dot (cred : Bytes) (k : Nat) (hk : 3 ≤ k)
    (hd : cred.getD k 0 = 46) : dotScan cred k = (k : Int) := by
  rw [dotScan, if_neg (by omega), if_pos (by simpa using hd)]

/-- The credential produced by `SignCredential` parses back: the scan finds
the separator dot at index `3 + a.length`, and verification succeeds
exactly when the agent id is nonempty. -/
theorem verify_sign_analysis (credKey a : Bytes) :
    VerifyCredential credKey (SignCredential credKey a) =
      if a = [] then .error "malformed credential" else .ok a := by
  set mac := hmacSHA512 credKey (strBytes "agent-credential:" ++ a) with hmac
  have hmlen : (hexEncode mac).length = 128 := by
    rw [hexEncode_length, hmacSHA512_length]
  have hmlt : ∀ b ∈ mac, b < 256 := hmacSHA512_lt _ _
  have hcred : SignCredential credKey a =
      strBytes "v1." ++ (a ++ (strBytes "." ++ hexEncode mac)) := by
    simp [SignCredential, hmac]
  have hlen : (SignCredential credKey a).length = 132 + a.length := by
    rw [hcred]
    simp only [List.length_append, hmlen]
    simp [strBytes]
    omega
  have htake : (SignCredential credKey a).take 3 = strBytes "v1." := by
    rw [hcred]
    exact List.take_left' rfl
  -- the scan over the credential finds the separator dot at 3 + a.length
  have hpre : SignCredential credKey a =
      (strBytes "v1." ++ a ++ strBytes ".") ++ hexEncode mac := by
    rw [hcred]; simp
  have hplen : (strBytes "v1." ++ a ++ strBytes ".").length = 4 + a.length := by
    simp [strBytes]; omega
  have hdotat : (SignCredential credKey a).getD (3 + a.length) 0 = 46 := by
    rw [hpre, List.getD_append _ _ _ _ (by rw [hplen]; omega)]
    have hlen2 : (strBytes "v1." ++ a).length = 3 + a.length := by simp [strBytes]; omega
    rw [List.getD_append_right _ _ _ _ hlen2.le, hlen2]
    simp [strBytes]
  have hnodot : ∀ j, 3 + a.length < j → j ≤ (SignCredential credKey a).length - 1 →
      (SignCredential credKey a).getD j 0 ≠ 46 := by
    intro j hj1 hj2
    rw [hpre, List.getD_append_right _ _ _ _ (by omega)]
    have hjlt : j - (strBytes "v1." ++ a ++ strBytes ".").length < (hexEncode mac).length := by
      rw [hplen, hmlen]
      rw [hlen] at hj2
      omega
    rw [List.getD_eq_getElem _ _ hjlt]
    exact hexEncode_no_dot mac hmlt _ (List.getElem_mem hjlt)
  have hscan : dotScan (SignCredential credKey a) ((SignCredential credKey a).length - 1) =
      ((3 + a.length : Nat) : Int) := by
    rw [dotScan_above (SignCredential credKey a) (3 + a.length) (by omega)
        ((SignCredential credKey a).length - 1) (by rw [hlen]; omega) hnodot]
    exact dotScan_at_dot _ _ (by omega) hdotat
  rw [VerifyCredential]
  rw [if_neg (by rw [hlen, htake]; simp; omega)]
  simp only [hscan]
  by_cases ha : a = []
  · subst ha
    rw [if_pos (by simp)]
    simp
  · have halen : 0 < a.length := List.length_pos.mpr ha
    rw [if_neg ?hc]
    case hc => omega
    have htn : ((3 + a.length : Nat) : Int).toNat = 3 + a.length := rfl
    simp only [htn]
    have hdrop : (SignCredential credKey a).drop 3 = a ++ (strBytes "." ++ hexEncode mac) := by
      rw [hcred]
      exact List.drop_left' rfl
    have htake2 : (a ++ (strBytes "." ++ hexEncode mac)).take (3 + a.length - 3) = a := by
      simp only [Nat.add_sub_cancel_left]
      exact List.take_left' rfl
    have hdrop2 : (SignCredential credKey a).drop (3 + a.length + 1) = hexEncode mac := by
      rw [hpre]
      refine List.drop_left' ?_
      rw [hplen]
      omega
    rw [hdrop, htake2, hdrop2, hexDecode_hexEncode mac hmlt]
    simp only [hmacEqual_self mac, if_pos, if_true, ha]
    simp [ha]

/-- Claim C2, amended to nonempty agent ids — for every nonempty agent id `a`
and every credential key, verifying the credential produced by signing
yields back exactly `a` with no error:
`VerifyCredential(SignCredential(a)) = (a, ok)`, with
`SignCredential(a) = "v1." ++ a ++ "." ++ hex(hmac_sha512(cred_key,
"agent-credential:" ++ a))`. -/
theorem verify_sign_roundtrip (credKey a : Bytes) (ha : a ≠ []) :
    VerifyCredential credKey (SignCredential credKey a) = .ok a := by
  rw [verify_sign_analysis, if_neg ha]

/-- Claim C2 counterexample — at the empty agent id the claim fails: the
credential `v1..<hexmac>` puts the last dot at index 3, which
`VerifyCredential` rejects as "malformed credential", so the round trip
does not return `ok`. -/
theorem verify_sign_fails_on_empty_id :
    VerifyCredential [] (SignCredential [] []) ≠ .ok [] := by
  rw [verify_sign_analysis, if_pos rfl]
  intro h
  exact Except.noConfusion h

/-- Concrete instantiation of the claim C2 theorem at agent id "x". -/
theorem verify_sign_roundtrip_witness :
    VerifyCredential [107] (SignCredential [107] [120]) = .ok [120] :=
  verify_sign_roundtrip [107] [120] (by decide)

theorem zipWith_xor_replicate (l : Bytes) (c : Nat) :
    ∀ n, l.length = n → List.zipWith (· ^^^ ·) l (List.replicate n c) = l.map (· ^^^ c) := by
  induction l with
  | nil => intro n _; simp
  | cons b bs ih =>
    intro n hn
    cases n with
    | zero => simp at hn
    | succ m =>
      simp only [List.replicate_succ, List.zipWith_cons_cons, List.map_cons]
      rw [ih m (by simpa using hn)]

/-- Claim C8 — for every key and message, `hmacSHA512` equals the reference
HMAC-SHA-512 of RFC 2104 (inner/outer construction, 128-byte block, long
keys pre-hashed). -/
theorem hmac_matches_rfc (key message : Bytes) :
    hmacSHA512 key message = hmacSHA512RFC key message := by
  rw [hmacSHA512, hmacSHA512RFC]
  by_cases h : 128 < key.length
  · have hns : ¬ key.length ≤ 128 := by omega
    simp only [if_pos h, if_neg hns]
    have hl : (sha512 key ++ List.replicate (128 - (sha512 key).length) 0).length = 128 := by
      simp [sha512_length]
    rw [zipWith_xor_replicate _ _ _ hl, zipWith_xor_replicate _ _ _ hl]
  · have hs : key.length ≤ 128 := by omega
    simp only [if_neg h, if_pos hs]
    have hl : (key ++ List.replicate (128 - key.length) 0).length = 128 := by
      simp
      omega
    rw [zipWith_xor_replicate _ _ _ hl, zipWith_xor_replicate _ _ _ hl]

theorem mem_of_short_list {α : Type} {l : List α} (h : l.length ≤ 1) :
    ∀ a ∈ l, ∀ b ∈ l, a = b := by
  match l with
  | [] => intro a ha; exact absurd ha (List.not_mem_nil a)
  | [x] =>
    intro a ha b hb
    simp only [List.mem_singleton] at ha hb
    rw [ha, hb]
  | x :: y :: rest => simp at h

/-- A consume against a table whose every row with the code hash is
already used cannot succeed and leaves the table unchanged. -/
theorem consume_allUsed_fails (now : Nat) (tokens : List EnrollmentToken)
    (codeHash aid : Bytes)
    (hall : ∀ t ∈ tokens, t.codeHash = codeHash → t.usedAt.isSome) :
    isConsumeSuccess (consumeEnrollmentToken now tokens codeHash aid).1 = false ∧
    (consumeEnrollmentToken now tokens codeHash aid).2 = tokens := by
  cases hf : tokens.find? (fun t => t.codeHash == codeHash) with
  | none => simp [consumeEnrollmentToken, hf, isConsumeSuccess]
  | some t =>
    have hph := List.find?_some hf
    have hmem := List.mem_of_find?_eq_some hf
    have hused : t.usedAt.isSome := hall t hmem (by simpa using hph)
    simp [consumeEnrollmentToken, hf, hused, isConsumeSuccess]

/-- Once every row with the code hash is used, a whole sequence of calls
produces no success and leaves the table unchanged. -/
theorem consumeSeq_allUsed_fails (codeHash : Bytes) :
    ∀ (calls : List (Nat × Bytes)) (tokens : List EnrollmentToken),
      (∀ t ∈ tokens, t.codeHash = codeHash → t.usedAt.isSome) →
      ((consumeSeq codeHash tokens calls).1.countP isConsumeSuccess = 0 ∧
       (consumeSeq codeHash tokens calls).2 = tokens) := by
  intro calls
  induction calls with
  | nil => intro tokens _; simp [consumeSeq]
  | cons c rest ih =>
    intro tokens hall
    obtain ⟨now, aid⟩ := c
    obtain ⟨hfail, hsame⟩ := consume_allUsed_fails now tokens codeHash aid hall
    obtain ⟨ih1, ih2⟩ := ih tokens hall
    have hnp : ¬ (isConsumeSuccess
        (consumeEnrollmentToken now tokens codeHash aid).1 = true) := by
      simp only [hfail]
      exact Bool.false_ne_true
    refine ⟨?_, ?_⟩
    · simp only [consumeSeq, hsame]
      rw [List.countP_cons_of_neg _ _ hnp]
      exact ih1
    · simp only [consumeSeq, hsame]
      exact ih2

/-- After the winning update, the lookup by code hash finds the updated
row (the update changes only `used_at`/`used_by`). -/
theorem find?_after_update (tokens : List EnrollmentToken) (t : EnrollmentToken)
    (now : Nat) (aid codeHash : Bytes)
    (hfind : tokens.find? (fun u => u.codeHash == codeHash) = some t) :
    (tokens.map (fun u => if u.id == t.id then
        { u with usedAt := some now, usedBy := some aid } else u)).find?
      (fun u => u.codeHash == codeHash) =
    some { t with usedAt := some now, usedBy := some aid } := by
  rw [List.find?_map]
  have hpred : ((fun u : EnrollmentToken => u.codeHash == codeHash) ∘
      (fun u => if u.id == t.id then
        { u with usedAt := some now, usedBy := some aid } else u)) =
      fun u : EnrollmentToken => u.codeHash == codeHash := by
    funext u
    by_cases hu : u.id = t.id <;> simp [hu]
  rw [hpred, hfind]
  simp

/-- After the winning update, every row with the code hash is used
(uniqueness of the hashed row is the `UNIQUE(code_hash)` constraint). -/
theorem update_makes_allUsed (tokens : List EnrollmentToken) (t : EnrollmentToken)
    (now : Nat) (aid codeHash : Bytes)
    (huniq : (tokens.filter (fun u => u.codeHash == codeHash)).length ≤ 1)
    (hfind : tokens.find? (fun u => u.codeHash == codeHash) = some t) :
    ∀ u ∈ tokens.map (fun u => if u.id == t.id then
        { u with usedAt := some now, usedBy := some aid } else u),
      u.codeHash = codeHash → u.usedAt.isSome := by
  intro u hu hch
  obtain ⟨v, hv, hvu⟩ := List.mem_map.mp hu
  have hph := List.find?_some hfind
  have htmem := List.mem_of_find?_eq_some hfind
  by_cases hid : v.id = t.id
  · rw [if_pos (by simpa using hid)] at hvu
    rw [← hvu]
    rfl
  · rw [if_neg (by simpa using hid)] at hvu
    subst hvu
    have hveq : v = t := mem_of_short_list huniq v
      (List.mem_filter.mpr ⟨hv, by simpa using hch⟩) t
      (List.mem_filter.mpr ⟨htmem, hph⟩)
    exact absurd (congrArg EnrollmentToken.id hveq) hid

/-- Claim C9 — in the serialized model of concurrent consumption (the store
executes the transactions one at a time, in any order): (i) with at most
one row per code hash — the `UNIQUE(code_hash)` constraint — at most one
of the N calls ever succeeds; (ii) when the token is present, unused, and
unexpired at the first call, exactly that call returns the consumed token
and every other call fails with the already-used error. -/
theorem consume_concurrent_single_winner (codeHash : Bytes)
    (tokens : List EnrollmentToken) :
    ((tokens.filter (fun u => u.codeHash == codeHash)).length ≤ 1 →
      ∀ calls, (consumeSeq codeHash tokens calls).1.countP isConsumeSuccess ≤ 1) ∧
    (∀ t now aid rest,
      tokens.find? (fun u => u.codeHash == codeHash) = some t →
      t.usedAt = none → ¬ t.expiresAt < now →
      (consumeSeq codeHash tokens ((now, aid) :: rest)).1 =
        .ok (some t) ::
          List.replicate rest.length (.error "enrollment token already used")) := by
  have hseq_used : ∀ (rest : List (Nat × Bytes)) (tk : List EnrollmentToken)
      (t' : EnrollmentToken),
      tk.find? (fun u => u.codeHash == codeHash) = some t' → t'.usedAt.isSome →
      (consumeSeq codeHash tk rest).1 =
        List.replicate rest.length (.error "enrollment token already used") := by
    intro rest
    induction rest with
    | nil => intro tk t' _ _; simp [consumeSeq]
    | cons c rest ih =>
      intro tk t' hfind hused
      obtain ⟨now, aid⟩ := c
      have hstep : consumeEnrollmentToken now tk codeHash aid =
          (.error "enrollment token already used", tk) := by
        simp [consumeEnrollmentToken, hfind, hused]
      simp only [consumeSeq, hstep, List.length_cons, List.replicate_succ]
      rw [ih tk t' hfind hused]
  constructor
  · intro huniq calls
    induction calls generalizing tokens with
    | nil => simp [consumeSeq]
    | cons c rest ih =>
      obtain ⟨now, aid⟩ := c
      have hfails : ∀ r : Except String (Option EnrollmentToken),
          isConsumeSuccess r = false → ¬ (isConsumeSuccess r = true) := by
        intro r hr
        simp only [hr]
        exact Bool.false_ne_true
      cases hf : tokens.find? (fun u => u.codeHash == codeHash) with
      | none =>
        have hstep : consumeEnrollmentToken now tokens codeHash aid =
            (.ok none, tokens) := by simp [consumeEnrollmentToken, hf]
        simp only [consumeSeq, hstep]
        rw [List.countP_cons_of_neg _ _ (hfails (.ok none) rfl)]
        exact ih tokens huniq
      | some t =>
        cases hu : t.usedAt with
        | some x =>
          have hstep : consumeEnrollmentToken now tokens codeHash aid =
              (.error "enrollment token already used", tokens) := by
            simp [consumeEnrollmentToken, hf, hu]
          simp only [consumeSeq, hstep]
          rw [List.countP_cons_of_neg _ _
            (hfails (.error "enrollment token already used") rfl)]
          exact ih tokens huniq
        | none =>
          by_cases hexp : t.expiresAt < now
          · have hstep : consumeEnrollmentToken now tokens codeHash aid =
                (.error "enrollment token expired", tokens) := by
              simp [consumeEnrollmentToken, hf, hu, hexp]
            simp only [consumeSeq, hstep]
            rw [List.countP_cons_of_neg _ _
              (hfails (.error "enrollment token expired") rfl)]
            exact ih tokens huniq
          · have hstep : consumeEnrollmentToken now tokens codeHash aid =
                (.ok (some t), tokens.map (fun u => if u.id == t.id then
                  { u with usedAt := some now, usedBy := some aid } else u)) := by
              simp [consumeEnrollmentToken, hf, hu, hexp]
            simp only [consumeSeq, hstep]
            rw [List.countP_cons_of_pos _ _
              (show isConsumeSuccess
                (Except.ok (some t) : Except String (Option EnrollmentToken)) = true from rfl)]
            have hall := update_makes_allUsed tokens t now aid codeHash huniq hf
            obtain ⟨hzero, _⟩ := consumeSeq_allUsed_fails codeHash rest _ hall
            omega
  · intro t now aid rest hfind hunused hexp
    have hstep : consumeEnrollmentToken now tokens codeHash aid =
        (.ok (some t), tokens.map (fun u => if u.id == t.id then
          { u with usedAt := some now, usedBy := some aid } else u)) := by
      simp [consumeEnrollmentToken, hfind, hunused, hexp]
    simp only [consumeSeq, hstep]
    rw [hseq_used rest _ _ (find?_after_update tokens t now aid codeHash hfind) rfl]

/-- Concrete instantiation of the claim C9 theorem: three concurrent
consumers of the same valid token — the first (in serialization order)
wins, the other two get the already-used error. -/
theorem consume_concurrent_single_winner_witness :
    (consumeSeq [104]
      [(⟨[116], [104], [97], [], 0, 200, none, none⟩ : EnrollmentToken)]
      [(100, [97]), (101, [98]), (102, [99])]).1 =
      [Except.ok (some (⟨[116], [104], [97], [], 0, 200, none, none⟩ : EnrollmentToken)),
       Except.error "enrollment token already used",
       Except.error "enrollment token already used"] := by
  have h := (consume_concurrent_single_winner [104]
    [(⟨[116], [104], [97], [], 0, 200, none, none⟩ : EnrollmentToken)]).2
    ⟨[116], [104], [97], [], 0, 200, none, none⟩
    100 [97] [(101, [98]), (102, [99])] (by decide) rfl (by decide)
  simpa using h

theorem hexPair_in_table : ∀ b < 256,
    hextable.getD (b >>> 4) 0 ∈ hextable ∧ hextable.getD (b &&& 15) 0 ∈ hextable := by
  decide

theorem hexEncode_mem_hextable (l : Bytes) (h : ∀ b ∈ l, b < 256) :
    ∀ c ∈ hexEncode l, c ∈ hextable := by
  induction l with
  | nil => simp [hexEncode]
  | cons b bs ih =>
    intro c hc
    have hb : b < 256 := h b (List.mem_cons_self b bs)
    obtain ⟨h1, h2⟩ := hexPair_in_table b hb
    rw [hexEncode_cons] at hc
    simp only [List.mem_cons] at hc
    rcases hc with hc | hc | hc
    · exact hc ▸ h1
    · exact hc ▸ h2
    · exact ih (fun x hx => h x (List.mem_cons_of_mem b hx)) c hc

/-- Inversion of a successful consume: the row was selected by hash,
unused and unexpired, and the new table is the update by primary key. -/
theorem consume_ok_some_inv (now : Nat) (tokens : List EnrollmentToken)
    (codeHash aid : Bytes) (tok : EnrollmentToken) (tokens' : List EnrollmentToken)
    (h : consumeEnrollmentToken now tokens codeHash aid = (.ok (some tok), tokens')) :
    tokens.find? (fun t => t.codeHash == codeHash) = some tok ∧
    tok.usedAt = none ∧ ¬ tok.expiresAt < now ∧
    tokens' = tokens.map (fun u => if u.id == tok.id then
      { u with usedAt := some now, usedBy := some aid } else u) := by
  cases hf : tokens.find? (fun t => t.codeHash == codeHash) with
  | none => simp [consumeEnrollmentToken, hf] at h
  | some t =>
    cases hu : t.usedAt with
    | some x => simp [consumeEnrollmentToken, hf, hu] at h
    | none =>
      by_cases hexp : t.expiresAt < now
      · simp [consumeEnrollmentToken, hf, hu, hexp] at h
      · simp only [consumeEnrollmentToken, hf, hu, hexp, Option.isSome_none,
          Bool.false_eq_true, if_false, Prod.mk.injEq] at h
        obtain ⟨h1, h2⟩ := h
        have ht : t = tok := by
          have := h1
          simp only [if_neg hexp] at this
          exact Option.some.inj (Except.ok.inj this)
        subst ht
        exact ⟨rfl, hu, hexp, h2.symm⟩

/-- Claim C5 — a successful `POST /api/enroll` responds 200 with: agent id =
the first 16 hex chars of SHA-256(code ∥ fingerprint); the signed
credential for that id, of shape `v1.<agent_id>.<128 hex chars>`; the
platform fingerprint = hex SHA-256 of the platform public key; and, in
self-signed TLS mode with a readable non-empty CA PEM, the CA PEM. -/
theorem enroll_success_response (credKey publicKey : Bytes) (tls : Bool)
    (caRead : Option Bytes) (now : Nat) (tokens tokens' : List EnrollmentToken)
    (agents : List AgentRecord) (req : EnrollReq) (tok : EnrollmentToken) (aid : Bytes)
    (haid : aid = (HashAPIKey (req.code ++ Fingerprint publicKey)).take 16)
    (hcode : req.code ≠ [])
    (hcons : consumeEnrollmentToken now tokens (HashEnrollmentCode req.code) aid =
      (.ok (some tok), tokens'))
    (hnoconf : (agents.any (fun b => b.id == aid ||
      b.credentialHash == CredentialHash (SignCredential credKey aid))) = false) :
    handleEnroll credKey publicKey tls caRead now tokens agents req =
      (.ok aid (SignCredential credKey aid) (Fingerprint publicKey)
        (if (if tls then caRead.getD [] else []) ≠ []
         then some (if tls then caRead.getD [] else []) else none),
       tokens',
       agents ++ [(⟨aid, req.name, req.hostname, req.os, req.arch,
         CredentialHash (SignCredential credKey aid), now, now⟩ : AgentRecord)]) ∧
    respStatus (handleEnroll credKey publicKey tls caRead now tokens agents req).1 = 200 ∧
    aid = (hexEncode (sha256 (req.code ++ hexEncode (sha256 publicKey)))).take 16 ∧
    SignCredential credKey aid =
      strBytes "v1." ++ aid ++ strBytes "." ++
        hexEncode (hmacSHA512 credKey (strBytes "agent-credential:" ++ aid)) ∧
    (hexEncode (hmacSHA512 credKey (strBytes "agent-credential:" ++ aid))).length = 128 ∧
    (∀ c ∈ hexEncode (hmacSHA512 credKey (strBytes "agent-credential:" ++ aid)),
      c ∈ hextable) ∧
    Fingerprint publicKey = hexEncode (sha256 publicKey) ∧
    (tls = true → ∀ pem, caRead = some pem → pem ≠ [] →
      respCACert (handleEnroll credKey publicKey tls caRead now tokens agents req).1 =
        some pem) := by
  have hmain : handleEnroll credKey publicKey tls caRead now tokens agents req =
      (.ok aid (SignCredential credKey aid) (Fingerprint publicKey)
        (if (if tls then caRead.getD [] else []) ≠ []
         then some (if tls then caRead.getD [] else []) else none),
       tokens',
       agents ++ [(⟨aid, req.name, req.hostname, req.os, req.arch,
         CredentialHash (SignCredential credKey aid), now, now⟩ : AgentRecord)]) := by
    simp only [handleEnroll]
    rw [if_neg hcode, ← haid, hcons]
    simp only [createAgent]
    rw [if_neg (by simp only [hnoconf]; exact Bool.false_ne_true)]
  refine ⟨hmain, ?_, ?_, rfl, ?_, ?_, rfl, ?_⟩
  · rw [hmain]
    rfl
  · rw [haid]
    rfl
  · rw [hexEncode_length, hmacSHA512_length]
  · exact hexEncode_mem_hextable _ (hmacSHA512_lt _ _)
  · intro htls pem hpem hne
    rw [hmain]
    subst htls
    rw [hpem]
    simp [respCACert, hne]

/-- Claim C6 — `POST /api/enroll` failure mapping: a consume error returns
403 with body `{"error":"<error message>"}` (in particular the re-use of a
consumed code returns `{"error":"enrollment token already used"}`); an
unknown code returns 403 `{"error":"invalid enrollment code"}`; a failure
to persist the agent record returns 500 — with the token row already
marked used in the store state the handler leaves behind. -/
theorem enroll_error_mapping (credKey publicKey : Bytes) (tls : Bool)
    (caRead : Option Bytes) (now : Nat) (tokens : List EnrollmentToken)
    (agents : List AgentRecord) (req : EnrollReq) (aid : Bytes)
    (haid : aid = (HashAPIKey (req.code ++ Fingerprint publicKey)).take 16)
    (hcode : req.code ≠ []) :
    (∀ e tokens',
      consumeEnrollmentToken now tokens (HashEnrollmentCode req.code) aid =
        (.error e, tokens') →
      handleEnroll credKey publicKey tls caRead now tokens agents req =
        (.err 403 (errorBody (strBytes e)), tokens', agents)) ∧
    (∀ tokens',
      consumeEnrollmentToken now tokens (HashEnrollmentCode req.code) aid =
        (.ok none, tokens') →
      handleEnroll credKey publicKey tls caRead now tokens agents req =
        (.err 403 (errorBody (strBytes "invalid enrollment code")), tokens', agents)) ∧
    (∀ tok tokens',
      consumeEnrollmentToken now tokens (HashEnrollmentCode req.code) aid =
        (.ok (some tok), tokens') →
      (agents.any (fun b => b.id == aid ||
        b.credentialHash == CredentialHash (SignCredential credKey aid))) = true →
      handleEnroll credKey publicKey tls caRead now tokens agents req =
        (.err 500 (errorBody (strBytes "enrollment failed")), tokens', agents) ∧
      tokens'.find? (fun u => u.codeHash == HashEnrollmentCode req.code) =
        some { tok with usedAt := some now, usedBy := some aid }) := by
  refine ⟨?_, ?_, ?_⟩
  · intro e tokens' hcons
    simp only [handleEnroll]
    rw [if_neg hcode, ← haid, hcons]
  · intro tokens' hcons
    simp only [handleEnroll]
    rw [if_neg hcode, ← haid, hcons]
  · intro tok tokens' hcons hconf
    constructor
    · simp only [handleEnroll]
      rw [if_neg hcode, ← haid, hcons]
      simp only [createAgent]
      rw [if_pos hconf]
    · obtain ⟨hfind, _, _, hmap⟩ :=
        consume_ok_some_inv now tokens (HashEnrollmentCode req.code) aid tok tokens' hcons
      rw [hmap]
      exact find?_after_update tokens tok now aid (HashEnrollmentCode req.code) hfind

/-- Concrete instantiation of the claim C5 theorem: a valid code "AAAA",
one unused token, self-signed mode with CA PEM `[88]` — the response is
200 and carries the CA PEM. -/
theorem enroll_success_response_witness :
    respStatus (handleEnroll [2] [1] true (some [88]) 100
      [(⟨[116], HashEnrollmentCode (strBytes "AAAA"), [97], [], 0, 200, none, none⟩ :
        EnrollmentToken)]
      [] ⟨strBytes "AAAA", [110], [104], [111], [97]⟩).1 = 200 ∧
    respCACert (handleEnroll [2] [1] true (some [88]) 100
      [(⟨[116], HashEnrollmentCode (strBytes "AAAA"), [97], [], 0, 200, none, none⟩ :
        EnrollmentToken)]
      [] ⟨strBytes "AAAA", [110], [104], [111], [97]⟩).1 = some [88] := by
  obtain ⟨_, h2, _, _, _, _, _, h8⟩ := enroll_success_response [2] [1] true (some [88]) 100
    [(⟨[116], HashEnrollmentCode (strBytes "AAAA"), [97], [], 0, 200, none, none⟩ :
      EnrollmentToken)]
    [(⟨[116], HashEnrollmentCode (strBytes "AAAA"), [97], [], 0, 200, some 100,
      some ((HashAPIKey (strBytes "AAAA" ++ Fingerprint [1])).take 16)⟩ : EnrollmentToken)]
    [] ⟨strBytes "AAAA", [110], [104], [111], [97]⟩
    ⟨[116], HashEnrollmentCode (strBytes "AAAA"), [97], [], 0, 200, none, none⟩
    ((HashAPIKey (strBytes "AAAA" ++ Fingerprint [1])).take 16)
    rfl (by decide) (by decide) rfl
  exact ⟨h2, h8 rfl [88] rfl (by decide)⟩

/-- Concrete instantiation of the claim C6 theorem: re-use of a consumed
code yields 403 with the exact body
`{"error":"enrollment token already used"}`; and with the agent row
already present the handler yields 500 while the token row in the final
store state is marked used. -/
theorem enroll_error_mapping_witness :
    handleEnroll [2] [1] false none 100
      [(⟨[116], HashEnrollmentCode (strBytes "AAAA"), [97], [], 0, 200, some 50,
        some [97]⟩ : EnrollmentToken)]
      [] ⟨strBytes "AAAA", [110], [104], [111], [97]⟩ =
      (.err 403 (strBytes "\x7b\"error\":\"enrollment token already used\"\x7d"),
       [(⟨[116], HashEnrollmentCode (strBytes "AAAA"), [97], [], 0, 200, some 50,
         some [97]⟩ : EnrollmentToken)], []) ∧
    (handleEnroll [2] [1] false none 100
      [(⟨[116], HashEnrollmentCode (strBytes "AAAA"), [97], [], 0, 200, none, none⟩ :
        EnrollmentToken)]
      [(⟨(HashAPIKey (strBytes "AAAA" ++ Fingerprint [1])).take 16, [], [], [], [], [],
        0, 0⟩ : AgentRecord)]
      ⟨strBytes "AAAA", [110], [104], [111], [97]⟩).1 =
      .err 500 (strBytes "\x7b\"error\":\"enrollment failed\"\x7d") := by
  constructor
  · have h := (enroll_error_mapping [2] [1] false none 100
      [(⟨[116], HashEnrollmentCode (strBytes "AAAA"), [97], [], 0, 200, some 50,
        some [97]⟩ : EnrollmentToken)]
      [] ⟨strBytes "AAAA", [110], [104], [111], [97]⟩
      ((HashAPIKey (strBytes "AAAA" ++ Fingerprint [1])).take 16)
      rfl (by decide)).1
      "enrollment token already used"
      [(⟨[116], HashEnrollmentCode (strBytes "AAAA"), [97], [], 0, 200, some 50,
        some [97]⟩ : EnrollmentToken)]
      (by decide)
    rw [h]
    decide
  · have h := ((enroll_error_mapping [2] [1] false none 100
      [(⟨[116], HashEnrollmentCode (strBytes "AAAA"), [97], [], 0, 200, none, none⟩ :
        EnrollmentToken)]
      [(⟨(HashAPIKey (strBytes "AAAA" ++ Fingerprint [1])).take 16, [], [], [], [], [],
        0, 0⟩ : AgentRecord)]
      ⟨strBytes "AAAA", [110], [104], [111], [97]⟩
      ((HashAPIKey (strBytes "AAAA" ++ Fingerprint [1])).take 16)
      rfl (by decide)).2.2
      ⟨[116], HashEnrollmentCode (strBytes "AAAA"), [97], [], 0, 200, none, none⟩
      [(⟨[116], HashEnrollmentCode (strBytes "AAAA"), [97], [], 0, 200, some 100,
        some ((HashAPIKey (strBytes "AAAA" ++ Fingerprint [1])).take 16)⟩ :
        EnrollmentToken)]
      (by decide) (by decide)).1
    rw [h]
    decide

end RMM
